import Mathlib

/-!
# Verification of the Modal batching pipe (`src/utils/modal.py`)

Shallow embedding of the distributed producer/consumer batching pipe:

* the partitioned queue (`modal.Queue`) is modelled as two FIFO lists,
  the default data partition and the `"signal"` control partition, both
  holding `QItem` values (`val v` for payload values put by `put_many`,
  `sig` for the `True` token put by `put(True, partition="signal")`);
* `produce_batch` is the producer closure returned by `_producer_batch`;
* one iteration of the `batched_consume` loop is `consumeIter`, driven by
  a `RaceOutcome` recording which side(s) of the
  `asyncio.wait(..., return_when=FIRST_COMPLETED)` race finished;
  `validRace` states which outcomes the asyncio semantics permits;
* whole executions are traces of `Event`s (producer calls, the `stop()`
  call of the lifecycle manager, consumer iterations) interleaved at the
  consumer's suspension points, folded by `runTrace`;
* the teardown path of the `send_batch_to` context manager is
  `scope_exit`; real-time durations are abstracted as rationals, and
  `asyncio.wait_for`'s timeout behaviour as `wait_for_timesOut`;
* the single-item adapter is `produce_one` / `consume_from_batch`, and
  the sync/async normalizer `corerce_to_async` (source spelling kept)
  acts on `HandlerFn`, whose effect is an `Except` so that handler
  exceptions are visible.
-/

namespace ModalPipe

/-- An item stored in the queue: either a payload value enqueued on the
data partition by `q.put_many(values)`, or the opaque `True` token
enqueued on the `"signal"` partition by `q.put(True, partition="signal")`. -/
inductive QItem (T : Type) where
  | val : T → QItem T
  | sig : QItem T
deriving DecidableEq, Repr

/-- The ephemeral `modal.Queue`, restricted to the two partitions the pipe
uses: the default (data) partition and the `"signal"` control partition.
Each partition is a FIFO list, head = oldest. -/
structure Queue (T : Type) where
  data : List (QItem T)
  signal : List (QItem T)
deriving DecidableEq, Repr

/-- `MAX_LEN = 5_000`: the queue service's hard per-request ceiling. -/
def MAX_LEN : Nat := 5000

namespace Queue

/-- The freshly created ephemeral queue: both partitions empty. -/
def empty {T : Type} : Queue T := ⟨[], []⟩

/-- `q.put_many(values)`: bulk enqueue onto the default (data) partition,
order preserved. -/
def put_many {T : Type} (q : Queue T) (values : List (QItem T)) : Queue T :=
  { q with data := q.data ++ values }

/-- `q.put(item, partition="signal")`: enqueue one item onto the control
partition. -/
def put_signal {T : Type} (q : Queue T) (item : QItem T) : Queue T :=
  { q with signal := q.signal ++ [item] }

/-- `q.get_many(n, block=False)` on the default partition: dequeue up to
`n` items from the front, returning them in FIFO order together with the
remaining queue. -/
def get_many_data {T : Type} (q : Queue T) (n : Nat) : List (QItem T) × Queue T :=
  (q.data.take n, { q with data := q.data.drop n })

/-- `q.get_many(n, partition="signal")` once it completes: dequeue up to
`n` items from the front of the control partition. -/
def get_many_signal {T : Type} (q : Queue T) (n : Nat) : List (QItem T) × Queue T :=
  (q.signal.take n, { q with signal := q.signal.drop n })

/-- `q.clear(all=True)`: discard all residual items in every partition. -/
def clear_all {T : Type} (_q : Queue T) : Queue T := ⟨[], []⟩

end Queue

/-- The producer closure `produce_batch` returned by `_producer_batch`:
`q.put_many(values)` (one bulk enqueue onto the data partition, order
preserved) followed by `q.put(True, partition="signal")` (exactly one
signal token). It is a pure function of the queue state: it touches no
local state, matching the requirement that it be safe to run in remote
execution contexts sharing no memory. -/
def produce_batch {T : Type} (q : Queue T) (values : List T) : Queue T :=
  (q.put_many (values.map QItem.val)).put_signal QItem.sig

/-- The two control states of the consumer loop: `running` while the
`while True` loop continues, `stopped` (terminal) after `break`. -/
inductive Mode where
  | running
  | stopped
deriving DecidableEq, Repr

/-- Global state of one pipe: the queue, the local `stop_event` flag, the
sequence of batches so far passed to `areceive` (in dispatch order), and
whether the consumer loop has terminated. -/
structure PState (T : Type) where
  queue : Queue T
  stopRequested : Bool
  handled : List (List (QItem T))
  mode : Mode
deriving DecidableEq, Repr

/-- State at scope entry: fresh queue, stop not requested, no batches
handled, consumer loop running. -/
def PState.init {T : Type} : PState T := ⟨Queue.empty, false, [], Mode.running⟩

/-- Which tasks were in `done` when
`asyncio.wait([get_task, stop_task], return_when=FIRST_COMPLETED)`
returned: `getDone` for the blocking signal dequeue, `stopDone` for
`stop_event.wait()`. Both may be true. -/
structure RaceOutcome where
  getDone : Bool
  stopDone : Bool
deriving DecidableEq, Repr

/-- The race outcomes the asyncio semantics can actually produce in a
given state: at least one task completed; the blocking signal dequeue can
only complete when a signal token is available; `stop_event.wait()` is in
`done` exactly when the event was set at the time of the race (an
already-set event's `wait` completes immediately, so a set flag always
lands the stop task in `done`). -/
def validRace {T : Type} (s : PState T) (r : RaceOutcome) : Prop :=
  (r.getDone = true ∨ r.stopDone = true) ∧
  (r.getDone = true → s.queue.signal ≠ []) ∧
  (r.stopDone = true ↔ s.stopRequested = true)

instance {T : Type} [DecidableEq T] (s : PState T) (r : RaceOutcome) :
    Decidable (validRace s r) := by
  unfold validRace
  infer_instance

/-- Result of one iteration of the `batched_consume` loop body:
the batch drained from the data partition, whether the handler was
invoked (`if values: await areceive(values)`), and the state after the
iteration. -/
structure IterResult (T : Type) where
  batch : List (QItem T)
  dispatched : Bool
  state : PState T
deriving DecidableEq, Repr

/-- One full iteration of `batched_consume`, given the race outcome `r`:
if the blocking `get_many` on the signal partition completed it consumed
up to `MAX_LEN` tokens; then, regardless of which side won, a
non-blocking `get_many(MAX_LEN, block=False)` drains the data partition;
a non-empty batch is dispatched to `areceive` and awaited; finally the
loop breaks (after `clear(all=True)`) precisely when `stop_task in done`
— the captured race result, not a re-read of the flag. -/
def consumeIter {T : Type} (s : PState T) (r : RaceOutcome) : IterResult T :=
  let q1 := if r.getDone then (s.queue.get_many_signal MAX_LEN).2 else s.queue
  let drained := q1.get_many_data MAX_LEN
  let batch := drained.1
  let q2 := drained.2
  let handled' := if batch.isEmpty then s.handled else s.handled ++ [batch]
  if r.stopDone then
    ⟨batch, !batch.isEmpty, ⟨q2.clear_all, s.stopRequested, handled', Mode.stopped⟩⟩
  else
    ⟨batch, !batch.isEmpty, ⟨q2, s.stopRequested, handled', Mode.running⟩⟩

/-- The events of an execution, interleaved at the consumer's suspension
points: a producer call (`send`), the lifecycle manager's `stop()` call
(`setStop`), and one consumer-loop iteration with its race outcome. -/
inductive Event (T : Type) where
  | send (values : List T)
  | setStop
  | iter (r : RaceOutcome)
deriving DecidableEq, Repr

/-- Effect of one event on the pipe state. A producer call runs
`produce_batch`; `stop()` sets the `stop_event`; an iteration runs the
consumer loop body. -/
def stepEvent {T : Type} (s : PState T) : Event T → PState T
  | .send vs => { s with queue := produce_batch s.queue vs }
  | .setStop => { s with stopRequested := true }
  | .iter r => (consumeIter s r).state

/-- Run a trace of events from a state. -/
def runTrace {T : Type} (s : PState T) : List (Event T) → PState T
  | [] => s
  | e :: es => runTrace (stepEvent s e) es

/-- Whether an event can occur in a state: consumer iterations require
the loop to still be running and a race outcome asyncio permits;
producer calls and `stop()` are unconstrained. -/
def eventOk {T : Type} (s : PState T) : Event T → Prop
  | .iter r => s.mode = Mode.running ∧ validRace s r
  | .send _ => True
  | .setStop => True

instance {T : Type} [DecidableEq T] (s : PState T) (e : Event T) :
    Decidable (eventOk s e) := by
  cases e <;> unfold eventOk <;> infer_instance

/-- A trace is valid from `s` when each event is possible in the state
where it occurs. -/
def ValidTrace {T : Type} (s : PState T) : List (Event T) → Prop
  | [] => True
  | e :: es => eventOk s e ∧ ValidTrace (stepEvent s e) es

instance instDecidableValidTrace {T : Type} [DecidableEq T] (s : PState T) :
    (tr : List (Event T)) → Decidable (ValidTrace s tr)
  | [] => .isTrue trivial
  | e :: es =>
    have : Decidable (ValidTrace (stepEvent s e) es) :=
      instDecidableValidTrace (stepEvent s e) es
    instDecidableAnd

/-- The batches handed to `send` along a trace, in trace order. -/
def sentBatches {T : Type} : List (Event T) → List (List T)
  | [] => []
  | .send vs :: es => vs :: sentBatches es
  | .setStop :: es => sentBatches es
  | .iter _ :: es => sentBatches es

/-- All values handed to `send` along a trace, in trace order. -/
def sentValues {T : Type} (tr : List (Event T)) : List T :=
  (sentBatches tr).flatten

/-! ## Lifecycle manager teardown (`send_batch_to`, lines 75–88)

Real time is abstracted: durations are rationals, and whether
`asyncio.wait_for(task, trailing_timeout)` raises `TimeoutError` is a
function of the bound and of how long the consumer task still needs. -/

/-- The `errors` policy parameter of `send_batch_to`. -/
inductive ErrorsPolicy where
  | throw
  | log
deriving DecidableEq, Repr

/-- The source default `errors: Literal["throw", "log"] = "log"`. -/
def default_errors : ErrorsPolicy := ErrorsPolicy.log

/-- The source default `trailing_timeout: float | None = 5`. -/
def default_trailing_timeout : Option ℚ := some 5

/-- Whether `asyncio.wait_for(task, timeout)` times out, given the bound
and the remaining duration `d` of the awaited task: with `timeout=None`
the wait is unbounded and never times out; with a numeric bound it times
out exactly when the task needs longer than the bound. -/
def wait_for_timesOut (timeout : Option ℚ) (d : ℚ) : Bool :=
  match timeout with
  | none => false
  | some t => decide (t < d)

/-- Observable steps taken by the `finally` block of `send_batch_to`. -/
inductive TAction where
  | raiseStop
  | awaitConsumer (bound : Option ℚ)
  | warnTimeout
deriving DecidableEq, Repr

/-- What exiting the `async with` scope does to the caller: return
normally, re-propagate the exception raised inside the caller's block, or
raise the annotated `TimeoutError`. -/
inductive ExitOutcome where
  | normal
  | propagatedCaller
  | raisedTimeout (note : String)
deriving DecidableEq, Repr

/-- Result of running the teardown path: the actions performed, in
order, and the outcome visible to the caller. -/
structure TeardownResult where
  actions : List TAction
  outcome : ExitOutcome
deriving DecidableEq, Repr

/-- Teardown path of `send_batch_to` (the `finally` block, which runs
whether or not the caller's block raised): `stop()` first, then
`await asyncio.wait_for(task, trailing_timeout)`; if that times out,
policy `"throw"` re-raises the `TimeoutError` with the note
`"While waiting for trailing messages"`, policy `"log"` logs a warning
and does not raise, so the caller sees its own exception (if any) or a
normal exit. `consumerDuration` is how long the consumer task still
needs at teardown time. -/
def scope_exit (trailing_timeout : Option ℚ) (errors : ErrorsPolicy)
    (callerRaised : Bool) (consumerDuration : ℚ) : TeardownResult :=
  let timedOut := wait_for_timesOut trailing_timeout consumerDuration
  let base : List TAction := [TAction.raiseStop, TAction.awaitConsumer trailing_timeout]
  if timedOut then
    match errors with
    | ErrorsPolicy.throw =>
        ⟨base, ExitOutcome.raisedTimeout "While waiting for trailing messages"⟩
    | ErrorsPolicy.log =>
        ⟨base ++ [TAction.warnTimeout],
         if callerRaised then ExitOutcome.propagatedCaller else ExitOutcome.normal⟩
  else
    ⟨base, if callerRaised then ExitOutcome.propagatedCaller else ExitOutcome.normal⟩

/-! ## Single-item adapter (`_producer` / `_consumer`, lines 200–227) -/

/-- The adapter's producer `produce_one`: wrap the value into a
one-element batch and delegate to the batch producer. In the pipe the
delegate `emit_batch` is the yielded `produce_batch`. -/
def produce_one {T : Type} (q : Queue T) (value : T) : Queue T :=
  produce_batch q [value]

/-- The adapter's batch handler `consume_from_batch`: iterate the batch
and invoke the per-item handler on each element in order, awaiting each
before the next. The per-item handler is modelled as a state transformer
`h`, so sequential awaited invocation is a left fold. -/
def consume_from_batch {T σ : Type} (h : σ → T → σ) (acc : σ) (values : List T) : σ :=
  values.foldl h acc

/-- Payload of a queue item, if it is a data value. -/
def QItem.getVal {T : Type} : QItem T → Option T
  | .val v => some v
  | .sig => none

/-- The data values carried by a list of queue items. -/
def valsOf {T : Type} (b : List (QItem T)) : List T :=
  b.filterMap QItem.getVal

/-- The per-item observation sequence of an execution when the user's
per-item handler records each value it is called with: every handled
batch is fed through `consume_from_batch` with the recording handler, in
dispatch order. -/
def itemObservations {T : Type} (handled : List (List (QItem T))) : List T :=
  handled.foldl (fun acc b => consume_from_batch (fun acc v => acc ++ [v]) acc (valsOf b)) []

/-! ## Handler normalizer (`corerce_to_async`, lines 208–216)

A caller-supplied callback is synchronous or asynchronous; either way its
behaviour on an argument is an effect that returns normally or raises,
modelled as `Except`. -/

/-- A caller-supplied callback, tagged with whether it is a coroutine
function (`inspect.iscoroutinefunction`). -/
inductive HandlerFn (α ε β : Type) where
  | sync : (α → Except ε β) → HandlerFn α ε β
  | async : (α → Except ε β) → HandlerFn α ε β

/-- Directly calling the callback: same effect in either case. -/
def HandlerFn.call {α ε β : Type} : HandlerFn α ε β → α → Except ε β
  | .sync f, a => f a
  | .async f, a => f a

/-- `corerce_to_async` (source spelling): a coroutine function is
returned unchanged; a synchronous one is wrapped in
`async def wrapper(*args, **kwargs): return fn(*args, **kwargs)`,
which forwards the arguments and catches nothing. -/
def corerce_to_async {α ε β : Type} : HandlerFn α ε β → α → Except ε β
  | .async f => f
  | .sync f => fun a => f a

/-! ## Concrete executions used to instantiate the theorems -/

/-- Sending `1, 2, 3` one at a time through the single-item pipe: each
`produce_one` call is a singleton `send`, the consumer wakes on each
signal, and the scope then exits. -/
def singleTrace : List (Event Nat) :=
  [Event.send [1], Event.iter ⟨true, false⟩,
   Event.send [2], Event.iter ⟨true, false⟩,
   Event.send [3], Event.iter ⟨true, false⟩,
   Event.setStop, Event.iter ⟨false, true⟩]

/-- Sending `[1, 2, 3]` once through the batch pipe, then exiting the
scope. -/
def batchTrace : List (Event Nat) :=
  [Event.send [1, 2, 3], Event.iter ⟨true, false⟩,
   Event.setStop, Event.iter ⟨false, true⟩]

/-- A shutdown with more than `MAX_LEN` items still pending: one `send`
of `5001` values completes, the scope exits, and the consumer performs
its final drain. -/
def overflowTrace : List (Event Nat) :=
  [Event.send (List.range 5001), Event.setStop, Event.iter ⟨false, true⟩]

/-- A small state with a non-trivial queue, used to instantiate
universally quantified theorems. -/
def sampleState : PState Nat :=
  ⟨⟨[QItem.val 10, QItem.val 20], [QItem.sig]⟩, false, [], Mode.running⟩

/-- `sampleState` with the stop request already raised. -/
def sampleStopState : PState Nat :=
  ⟨⟨[QItem.val 10, QItem.val 20], [QItem.sig]⟩, true, [], Mode.running⟩

/-! ## Helper lemmas about one consumer iteration -/

/-- The batch drained in an iteration is always the first `MAX_LEN` items
of the data partition, whichever side of the race completed: the blocking
dequeue in step 1 touches only the signal partition. -/
theorem consumeIter_batch {T : Type} (s : PState T) (r : RaceOutcome) :
    (consumeIter s r).batch = s.queue.data.take MAX_LEN := by
  unfold consumeIter Queue.get_many_data Queue.get_many_signal
  cases hg : r.getDone <;> cases hs : r.stopDone <;> simp [hg, hs]

/-- The handled-batch log after an iteration: unchanged if the drain was
empty, otherwise extended by exactly the drained batch. -/
theorem consumeIter_handled {T : Type} (s : PState T) (r : RaceOutcome) :
    (consumeIter s r).state.handled
      = if (s.queue.data.take MAX_LEN).isEmpty then s.handled
        else s.handled ++ [s.queue.data.take MAX_LEN] := by
  unfold consumeIter Queue.get_many_data Queue.get_many_signal
  cases hg : r.getDone <;> cases hs : r.stopDone <;> simp [hg, hs]

/-- Flattened form of `consumeIter_handled`: the concatenation of all
handled batches grows by exactly the drained prefix of the data
partition. -/
theorem consumeIter_handled_flatten {T : Type} (s : PState T) (r : RaceOutcome) :
    (consumeIter s r).state.handled.flatten
      = s.handled.flatten ++ s.queue.data.take MAX_LEN := by
  rw [consumeIter_handled]
  by_cases h : (s.queue.data.take MAX_LEN).isEmpty
  · simp [h, List.isEmpty_iff.mp h]
  · simp [h]

/-- The data partition after an iteration: emptied by `clear(all=True)`
when the stop side of the race had completed, otherwise exactly the
residue beyond the first `MAX_LEN` items. -/
theorem consumeIter_data {T : Type} (s : PState T) (r : RaceOutcome) :
    (consumeIter s r).state.queue.data
      = if r.stopDone = true then [] else s.queue.data.drop MAX_LEN := by
  unfold consumeIter Queue.get_many_data Queue.get_many_signal Queue.clear_all
  cases hg : r.getDone <;> cases hs : r.stopDone <;> simp [hg, hs]

/-- The signal partition after an iteration: the consumer only ever
removes tokens (or clears on stop); it never enqueues one, so there is no
self-re-signaling. -/
theorem consumeIter_signal {T : Type} (s : PState T) (r : RaceOutcome) :
    (consumeIter s r).state.queue.signal
      = if r.stopDone = true then []
        else if r.getDone = true then s.queue.signal.drop MAX_LEN
        else s.queue.signal := by
  unfold consumeIter Queue.get_many_data Queue.get_many_signal Queue.clear_all
  cases hg : r.getDone <;> cases hs : r.stopDone <;> simp [hg, hs]

/-- The loop breaks exactly when the stop task was in `done`. -/
theorem consumeIter_mode {T : Type} (s : PState T) (r : RaceOutcome) :
    (consumeIter s r).state.mode
      = if r.stopDone = true then Mode.stopped else Mode.running := by
  unfold consumeIter
  cases hs : r.stopDone <;> simp [hs]

/-- An iteration does not touch the stop flag. -/
theorem consumeIter_stopRequested {T : Type} (s : PState T) (r : RaceOutcome) :
    (consumeIter s r).state.stopRequested = s.stopRequested := by
  unfold consumeIter
  cases hs : r.stopDone <;> simp [hs]

/-- The handler is dispatched exactly when the drained batch is
non-empty. -/
theorem consumeIter_dispatched {T : Type} (s : PState T) (r : RaceOutcome) :
    (consumeIter s r).dispatched = !(s.queue.data.take MAX_LEN).isEmpty := by
  unfold consumeIter Queue.get_many_data Queue.get_many_signal
  cases hg : r.getDone <;> cases hs : r.stopDone <;> simp [hg, hs]

/-! ## Helper lemmas about traces -/

theorem runTrace_append {T : Type} (s : PState T) (as bs : List (Event T)) :
    runTrace s (as ++ bs) = runTrace (runTrace s as) bs := by
  induction as generalizing s with
  | nil => rfl
  | cons e es ih => simp [runTrace, ih]

theorem ValidTrace_append {T : Type} (s : PState T) (as bs : List (Event T)) :
    ValidTrace s (as ++ bs) ↔ ValidTrace s as ∧ ValidTrace (runTrace s as) bs := by
  induction as generalizing s with
  | nil => simp [ValidTrace, runTrace]
  | cons e es ih => simp [ValidTrace, runTrace, ih, and_assoc]

theorem sentBatches_append {T : Type} (as bs : List (Event T)) :
    sentBatches (as ++ bs) = sentBatches as ++ sentBatches bs := by
  induction as with
  | nil => rfl
  | cons e es ih => cases e <;> simp [sentBatches, ih]

theorem sentValues_append {T : Type} (as bs : List (Event T)) :
    sentValues (as ++ bs) = sentValues as ++ sentValues bs := by
  simp [sentValues, sentBatches_append]

theorem sentValues_send {T : Type} (vs : List T) (es : List (Event T)) :
    sentValues (Event.send vs :: es) = vs ++ sentValues es := by
  simp [sentValues, sentBatches]

theorem sentValues_setStop {T : Type} (es : List (Event T)) :
    sentValues (Event.setStop :: es) = sentValues es := rfl

theorem sentValues_iter {T : Type} (r : RaceOutcome) (es : List (Event T)) :
    sentValues (Event.iter r :: es) = sentValues es := rfl

/-- No event can restart a stopped loop. -/
theorem stepEvent_stopped {T : Type} (s : PState T) (e : Event T)
    (h : s.mode = Mode.stopped) (he : eventOk s e) :
    (stepEvent s e).mode = Mode.stopped := by
  cases e with
  | send vs => simpa [stepEvent]
  | setStop => simpa [stepEvent]
  | iter r => exact absurd he.1 (by simp [h])

/-- A valid trace from a stopped state stays stopped. -/
theorem runTrace_stopped {T : Type} (s : PState T) (tr : List (Event T))
    (h : s.mode = Mode.stopped) (hv : ValidTrace s tr) :
    (runTrace s tr).mode = Mode.stopped := by
  induction tr generalizing s with
  | nil => exact h
  | cons e es ih => exact ih _ (stepEvent_stopped s e h hv.1) hv.2

/-- A valid trace from a stopped state contains no further consumer
iteration: the loop has terminated for good. -/
theorem no_iter_after_stopped {T : Type} (s : PState T) (tr : List (Event T))
    (h : s.mode = Mode.stopped) (hv : ValidTrace s tr) :
    ∀ r : RaceOutcome, Event.iter r ∉ tr := by
  induction tr generalizing s with
  | nil => simp
  | cons e es ih =>
    intro r hr
    rcases List.mem_cons.mp hr with h1 | h2
    · subst h1
      exact absurd hv.1.1 (by simp [h])
    · exact ih _ (stepEvent_stopped s e h hv.1) hv.2 r h2

/-- Conservation: while the loop is still running, the values already
handed to the handler followed by the values still pending in the data
partition are exactly the initial contents plus everything sent, in
order. Nothing is lost or duplicated before shutdown. -/
theorem runTrace_conservation {T : Type} (s : PState T) (tr : List (Event T))
    (hv : ValidTrace s tr) (hrun : (runTrace s tr).mode = Mode.running) :
    (runTrace s tr).handled.flatten ++ (runTrace s tr).queue.data
      = s.handled.flatten ++ s.queue.data ++ (sentValues tr).map QItem.val := by
  induction tr generalizing s with
  | nil => simp [runTrace, sentValues, sentBatches]
  | cons e es ih =>
    have hv2 : ValidTrace (stepEvent s e) es := hv.2
    have hrun' : (runTrace (stepEvent s e) es).mode = Mode.running := hrun
    cases e with
    | send vs =>
      have h := ih (stepEvent s (Event.send vs)) hv2 hrun'
      have hr : runTrace s (Event.send vs :: es)
          = runTrace (stepEvent s (Event.send vs)) es := rfl
      rw [hr, h, sentValues_send]
      simp [stepEvent, produce_batch, Queue.put_many, Queue.put_signal,
        List.append_assoc]
    | setStop =>
      have h := ih (stepEvent s Event.setStop) hv2 hrun'
      have hr : runTrace s (Event.setStop :: es)
          = runTrace (stepEvent s Event.setStop) es := rfl
      rw [hr, h, sentValues_setStop]
      rfl
    | iter r =>
      cases hs : r.stopDone with
      | true =>
        exfalso
        have hstopped : (stepEvent s (Event.iter r)).mode = Mode.stopped := by
          show (consumeIter s r).state.mode = Mode.stopped
          rw [consumeIter_mode, if_pos hs]
        have hst := runTrace_stopped _ es hstopped hv2
        rw [hst] at hrun'
        exact Mode.noConfusion hrun'
      | false =>
        have h := ih (stepEvent s (Event.iter r)) hv2 hrun'
        have hstep : (stepEvent s (Event.iter r)).handled.flatten
              ++ (stepEvent s (Event.iter r)).queue.data
            = s.handled.flatten ++ s.queue.data := by
          show (consumeIter s r).state.handled.flatten
              ++ (consumeIter s r).state.queue.data = _
          rw [consumeIter_handled_flatten, consumeIter_data, if_neg (by simp [hs])]
          rw [List.append_assoc, List.take_append_drop]
        have hr : runTrace s (Event.iter r :: es)
            = runTrace (stepEvent s (Event.iter r)) es := rfl
        rw [hr, h, sentValues_iter, hstep]

/-- Every item in the data partition and every element of every handled
batch is a payload value drawn from `S`. -/
def goodState {T : Type} (S : List T) (s : PState T) : Prop :=
  (∀ x ∈ s.queue.data, ∃ v ∈ S, x = QItem.val v) ∧
  (∀ b ∈ s.handled, ∀ x ∈ b, ∃ v ∈ S, x = QItem.val v)

theorem goodState_mono {T : Type} {S S' : List T} {s : PState T}
    (hsub : ∀ v ∈ S, v ∈ S') (h : goodState S s) : goodState S' s := by
  obtain ⟨h1, h2⟩ := h
  refine ⟨fun x hx => ?_, fun b hb x hx => ?_⟩
  · obtain ⟨v, hv, rfl⟩ := h1 x hx
    exact ⟨v, hsub v hv, rfl⟩
  · obtain ⟨v, hv, rfl⟩ := h2 b hb x hx
    exact ⟨v, hsub v hv, rfl⟩

/-- A consumer iteration introduces no new values: the handled log only
gains a prefix of the data partition, and the data partition only
shrinks. -/
theorem goodState_iter {T : Type} {S : List T} {s : PState T} (r : RaceOutcome)
    (h : goodState S s) : goodState S (consumeIter s r).state := by
  obtain ⟨h1, h2⟩ := h
  constructor
  · intro x hx
    rw [consumeIter_data] at hx
    by_cases hs : r.stopDone = true
    · simp [hs] at hx
    · rw [if_neg hs] at hx
      exact h1 x (List.mem_of_mem_drop hx)
  · intro b hb x hx
    rw [consumeIter_handled] at hb
    by_cases he : (s.queue.data.take MAX_LEN).isEmpty = true
    · exact h2 b (by simpa [he] using hb) x hx
    · rw [if_neg he] at hb
      rcases List.mem_append.mp hb with hb1 | hb2
      · exact h2 b hb1 x hx
      · have hbeq : b = s.queue.data.take MAX_LEN := by simpa using hb2
        subst hbeq
        exact h1 x (List.mem_of_mem_take hx)

/-- Provenance along a run: starting from a state whose data items and
handled elements are values from `S`, after any trace they are values
from `S` plus the values sent along the trace. -/
theorem runTrace_good {T : Type} (S : List T) (s : PState T) (tr : List (Event T))
    (h : goodState S s) :
    goodState (S ++ sentValues tr) (runTrace s tr) := by
  induction tr generalizing S s with
  | nil => exact goodState_mono (by simp [sentValues, sentBatches]) h
  | cons e es ih =>
    cases e with
    | send vs =>
      have h' : goodState (S ++ vs) (stepEvent s (Event.send vs)) := by
        obtain ⟨h1, h2⟩ := h
        constructor
        · intro x hx
          have hx' : x ∈ s.queue.data ++ vs.map QItem.val := hx
          rcases List.mem_append.mp hx' with hx1 | hx2
          · obtain ⟨v, hv, rfl⟩ := h1 x hx1
            exact ⟨v, List.mem_append.mpr (Or.inl hv), rfl⟩
          · obtain ⟨v, hv, rfl⟩ := List.mem_map.mp hx2
            exact ⟨v, List.mem_append.mpr (Or.inr hv), rfl⟩
        · intro b hb x hx
          obtain ⟨v, hv, rfl⟩ := h2 b hb x hx
          exact ⟨v, List.mem_append.mpr (Or.inl hv), rfl⟩
      have := ih (S ++ vs) _ h'
      simpa [sentValues_send, List.append_assoc] using this
    | setStop =>
      have h' : goodState S (stepEvent s Event.setStop) := h
      simpa [sentValues_setStop] using ih S _ h'
    | iter r =>
      simpa [sentValues_iter] using ih S _ (goodState_iter r h)

/-! ## Claims -/

/-- C5: for every call to the produced `send` function with a batch of
values, the producer performs exactly one bulk enqueue of those values
onto the data partition preserving their order, followed by exactly one
signal-token enqueue onto the control (signal) partition, and performs no
other operation: the resulting queue is literally the old one with the
values appended to the data partition and a single token appended to the
signal partition. `produce_batch` is a pure function of the queue alone,
so it uses no local synchronization. -/
theorem claim5_producer {T : Type} (q : Queue T) (values : List T) :
    produce_batch q values
      = ⟨q.data ++ values.map QItem.val, q.signal ++ [QItem.sig]⟩ := rfl

/-- C8: the handler normalizer turns any callback, synchronous or
asynchronous, into a callable with the asynchronous signature that calls
the original with the same argument and the same effect, catching
nothing — an exceptional result propagates unchanged — so a handler
defined synchronously and one defined asynchronously with the same body
produce identical observed call results. -/
theorem claim8_normalizer {α ε β : Type} (h : HandlerFn α ε β)
    (f : α → Except ε β) (a : α) :
    corerce_to_async h a = h.call a
    ∧ corerce_to_async (HandlerFn.sync f) a = corerce_to_async (HandlerFn.async f) a
    ∧ (∀ e : ε, h.call a = Except.error e → corerce_to_async h a = Except.error e) := by
  refine ⟨?_, rfl, ?_⟩
  · cases h <;> rfl
  · intro e he
    cases h <;> simpa [corerce_to_async, HandlerFn.call] using he

/-- Witness for C8 at a concrete synchronous callback: the coerced form
returns the callback's value, agrees with the asynchronous form, and
propagates the callback's exception. -/
theorem claim8_normalizer_witness :
    corerce_to_async
        (HandlerFn.sync fun n : Nat => if n = 0 then Except.error "zero" else Except.ok n) 3
      = Except.ok 3
    ∧ corerce_to_async
        (HandlerFn.sync fun n : Nat => if n = 0 then Except.error "zero" else Except.ok n) 0
      = Except.error "zero" := by
  have h3 := claim8_normalizer
    (HandlerFn.sync fun n : Nat => if n = 0 then Except.error "zero" else Except.ok n)
    (fun n : Nat => if n = 0 then Except.error "zero" else Except.ok n) 3
  have h0 := claim8_normalizer
    (HandlerFn.sync fun n : Nat => if n = 0 then Except.error "zero" else Except.ok n)
    (fun n : Nat => if n = 0 then Except.error "zero" else Except.ok n) 0
  exact ⟨by rw [h3.1]; rfl, h0.2.2 "zero" rfl⟩

/-- C4: on every iteration, regardless of which side of the race
completed, the non-blocking bulk dequeue drains exactly the first
`MAX_LEN` items of the data partition (so at most `MAX_LEN` per
iteration); when the loop continues, the remainder beyond `MAX_LEN`
stays in the data partition untouched, and the consumer never enqueues a
signal token — the signal partition only ever shrinks — so there is no
self-re-signaling or re-polling after a drain. `MAX_LEN` is `5000`. -/
theorem claim4_single_drain {T : Type} (s : PState T) (r : RaceOutcome) :
    (consumeIter s r).batch = s.queue.data.take MAX_LEN
    ∧ (consumeIter s r).batch.length ≤ MAX_LEN
    ∧ (r.stopDone = false →
        (consumeIter s r).state.queue.data = s.queue.data.drop MAX_LEN)
    ∧ (r.stopDone = false →
        (consumeIter s r).state.queue.signal
          = if r.getDone = true then s.queue.signal.drop MAX_LEN else s.queue.signal)
    ∧ MAX_LEN = 5000 := by
  refine ⟨consumeIter_batch s r, ?_, ?_, ?_, rfl⟩
  · rw [consumeIter_batch]
    exact s.queue.data.length_take_le MAX_LEN
  · intro h
    rw [consumeIter_data, if_neg (by simp [h])]
  · intro h
    rw [consumeIter_signal, if_neg (by simp [h])]

/-- Witness for C4: a concrete iteration that wakes on a signal drains
both pending items (within the `MAX_LEN` bound) and leaves the partitions
drained, never re-signalled. -/
theorem claim4_single_drain_witness :
    (consumeIter sampleState ⟨true, false⟩).batch = [QItem.val 10, QItem.val 20]
    ∧ (consumeIter sampleState ⟨true, false⟩).state.queue.data = []
    ∧ (consumeIter sampleState ⟨true, false⟩).state.queue.signal = [] := by
  have h := claim4_single_drain sampleState ⟨true, false⟩
  refine ⟨?_, ?_, ?_⟩
  · rw [h.1]; decide
  · rw [h.2.2.1 rfl]; decide
  · rw [h.2.2.2.1 rfl]; decide

/-- C6: the handler is invoked in an iteration if and only if the batch
drained in that iteration is non-empty, and the handled log is extended
by exactly that one batch, appended after all earlier invocations — in
this step-function embedding the `await` of the handler completes within
the iteration, so invocation N+1 can only appear after invocation N has
finished. -/
theorem claim6_dispatch {T : Type} (s : PState T) (r : RaceOutcome) :
    ((consumeIter s r).dispatched = true ↔ (consumeIter s r).batch ≠ [])
    ∧ (consumeIter s r).state.handled
        = s.handled ++ (if (consumeIter s r).batch.isEmpty then []
                        else [(consumeIter s r).batch]) := by
  constructor
  · rw [consumeIter_dispatched, consumeIter_batch]
    simp
  · rw [consumeIter_handled, consumeIter_batch]
    by_cases he : (s.queue.data.take MAX_LEN).isEmpty = true <;> simp [he]

/-- Witness for C6: with data pending the handler is dispatched and the
log gains that batch; with nothing pending it is not dispatched. -/
theorem claim6_dispatch_witness :
    (consumeIter sampleState ⟨true, false⟩).dispatched = true
    ∧ (consumeIter sampleState ⟨true, false⟩).state.handled
        = [[QItem.val 10, QItem.val 20]]
    ∧ (consumeIter (PState.init (T := Nat)) ⟨false, true⟩).dispatched = false := by
  have h1 := claim6_dispatch sampleState ⟨true, false⟩
  have h2 := claim6_dispatch (PState.init (T := Nat)) ⟨false, true⟩
  refine ⟨h1.1.mpr (by decide), ?_, ?_⟩
  · rw [h1.2]; decide
  · by_contra htrue
    have := h2.1.mp (by revert htrue; cases hd : (consumeIter (PState.init (T := Nat)) ⟨false, true⟩).dispatched <;> simp [hd])
    exact this (by decide)

/-- C2: the consumer loop transitions to STOPPED exactly when its race
result recorded the stop-wait as completed (the captured `stop_task in
done`, not a re-read of the flag); when it did, the iteration — after
its non-blocking drain and any dispatch — discards all residual items in
every partition and terminates; and a stop raised after the race (during
or after dispatch, modelled by a `setStop` following the iteration) does
not terminate that iteration but forces the next iteration's race to
complete on the stop side, drain once more, and terminate. -/
theorem claim2_stop_transition {T : Type} (s : PState T) (r : RaceOutcome) :
    ((consumeIter s r).state.mode = Mode.stopped ↔ r.stopDone = true)
    ∧ (r.stopDone = true →
        (consumeIter s r).batch = s.queue.data.take MAX_LEN
        ∧ (consumeIter s r).state.queue.data = []
        ∧ (consumeIter s r).state.queue.signal = [])
    ∧ (r.stopDone = false →
        (consumeIter s r).state.mode = Mode.running
        ∧ ∀ r' : RaceOutcome,
            validRace (stepEvent (consumeIter s r).state Event.setStop) r' →
              r'.stopDone = true
              ∧ (consumeIter (stepEvent (consumeIter s r).state Event.setStop) r').batch
                  = (consumeIter s r).state.queue.data.take MAX_LEN
              ∧ (consumeIter (stepEvent (consumeIter s r).state Event.setStop) r').state.mode
                  = Mode.stopped) := by
  refine ⟨?_, ?_, ?_⟩
  · rw [consumeIter_mode]
    cases hs : r.stopDone <;> simp [hs]
  · intro h
    exact ⟨consumeIter_batch s r,
      by rw [consumeIter_data, if_pos h],
      by rw [consumeIter_signal, if_pos h]⟩
  · intro h
    refine ⟨by rw [consumeIter_mode, if_neg (by simp [h])], ?_⟩
    intro r' hr'
    have hstop' : r'.stopDone = true := hr'.2.2.mpr rfl
    exact ⟨hstop', consumeIter_batch _ r',
      by rw [consumeIter_mode, if_pos hstop']⟩

/-- Witness for C2: concretely, an iteration whose race recorded only
new data keeps running even though data was drained; raising stop
afterwards forces the next race onto the stop side, one more drain of
what is left, and termination with cleared partitions. -/
theorem claim2_stop_transition_witness :
    (consumeIter sampleState ⟨true, false⟩).state.mode = Mode.running
    ∧ (consumeIter (stepEvent (consumeIter sampleState ⟨true, false⟩).state Event.setStop)
        ⟨false, true⟩).state.mode = Mode.stopped
    ∧ (consumeIter sampleStopState ⟨false, true⟩).state.queue.data = []
    ∧ (consumeIter sampleStopState ⟨false, true⟩).state.queue.signal = [] := by
  have h := claim2_stop_transition sampleState ⟨true, false⟩
  have hrun := (h.2.2 rfl).1
  have hnext := (h.2.2 rfl).2 ⟨false, true⟩ (by decide)
  have h' := claim2_stop_transition sampleStopState ⟨false, true⟩
  exact ⟨hrun, hnext.2.2, (h'.2.1 rfl).2.1, (h'.2.1 rfl).2.2⟩

/-- C9: once the stop request has been raised, any permitted race
completes on the stop side immediately — the loop never blocks on the
signal dequeue again — the very next iteration terminates the loop,
whatever the partitions contain, and no valid continuation of the
execution contains a further consumer iteration. -/
theorem claim9_stop_terminates {T : Type} (s : PState T) (r : RaceOutcome)
    (hstop : s.stopRequested = true) (hv : validRace s r) :
    r.stopDone = true
    ∧ (consumeIter s r).state.mode = Mode.stopped
    ∧ (∀ tr : List (Event T), ValidTrace (consumeIter s r).state tr →
        ∀ r' : RaceOutcome, Event.iter r' ∉ tr) := by
  have h1 : r.stopDone = true := hv.2.2.mpr hstop
  have h2 : (consumeIter s r).state.mode = Mode.stopped := by
    rw [consumeIter_mode, if_pos h1]
  exact ⟨h1, h2, fun tr hvt => no_iter_after_stopped _ tr h2 hvt⟩

/-- Witness for C9: in a stop-requested state with a non-empty queue,
the permitted race completes on the stop side and the iteration
terminates the loop. -/
theorem claim9_stop_terminates_witness :
    sampleStopState.stopRequested = true
    ∧ validRace sampleStopState ⟨false, true⟩
    ∧ (consumeIter sampleStopState ⟨false, true⟩).state.mode = Mode.stopped := by
  refine ⟨rfl, by decide, ?_⟩
  exact (claim9_stop_terminates sampleStopState ⟨false, true⟩ rfl (by decide)).2.1

/-- C10: the handler never observes a signal token. Producers write
signal tokens only to the `"signal"` partition and data values only to
the data partition, and the handler's batches are drained exclusively
from the data partition, so in every execution every element of every
batch delivered to the handler is a payload value from some `send`
call — never `sig`. -/
theorem claim10_no_signal_to_handler {T : Type} (tr : List (Event T))
    (hv : ValidTrace (PState.init (T := T)) tr) :
    ∀ b ∈ (runTrace (PState.init (T := T)) tr).handled, ∀ x ∈ b,
      (∃ v ∈ sentValues tr, x = QItem.val v) ∧ x ≠ QItem.sig := by
  intro b hb x hx
  have hg := runTrace_good [] (PState.init (T := T)) tr
    (by exact ⟨by simp [PState.init, Queue.empty], by simp [PState.init]⟩)
  obtain ⟨v, hvmem, rfl⟩ := hg.2 b hb x hx
  exact ⟨⟨v, by simpa using hvmem, rfl⟩, by simp⟩

/-- Witness for C10: in the concrete batch execution, the element
`val 1` of the only delivered batch is a sent value and is not the
signal token. -/
theorem claim10_no_signal_to_handler_witness :
    (∃ v ∈ sentValues batchTrace, QItem.val (1 : Nat) = QItem.val v)
    ∧ QItem.val (1 : Nat) ≠ QItem.sig := by
  exact claim10_no_signal_to_handler batchTrace (by decide)
    [QItem.val 1, QItem.val 2, QItem.val 3] (by decide) (QItem.val 1) (by decide)

/-- C3: on scope exit of the pipe context manager — always, including
when the caller's block raised — the teardown first raises the stop
request and then awaits the consumer task bounded by `trailing_timeout`
(a `None` bound never times out, i.e. the wait is unbounded); if the
bounded wait times out, policy `"throw"` raises the `TimeoutError`
annotated `"While waiting for trailing messages"` to the caller, while
policy `"log"` — the source default — logs a warning and raises no
exception of its own. -/
theorem claim3_teardown (tt : Option ℚ) (errors : ErrorsPolicy)
    (callerRaised : Bool) (d : ℚ) :
    (scope_exit tt errors callerRaised d).actions.take 2
        = [TAction.raiseStop, TAction.awaitConsumer tt]
    ∧ (scope_exit tt errors callerRaised d).actions
        = (scope_exit tt errors (!callerRaised) d).actions
    ∧ (tt = none → wait_for_timesOut tt d = false)
    ∧ (wait_for_timesOut tt d = true → errors = ErrorsPolicy.throw →
        (scope_exit tt errors callerRaised d).outcome
          = ExitOutcome.raisedTimeout "While waiting for trailing messages")
    ∧ (wait_for_timesOut tt d = true → errors = ErrorsPolicy.log →
        TAction.warnTimeout ∈ (scope_exit tt errors callerRaised d).actions
        ∧ (scope_exit tt errors callerRaised d).outcome
            = (if callerRaised then ExitOutcome.propagatedCaller else ExitOutcome.normal))
    ∧ default_errors = ErrorsPolicy.log := by
  refine ⟨?_, ?_, ?_, ?_, ?_, rfl⟩
  · cases h1 : wait_for_timesOut tt d <;> cases errors <;> simp [scope_exit, h1]
  · cases h1 : wait_for_timesOut tt d <;> cases errors <;> simp [scope_exit, h1]
  · rintro rfl
    rfl
  · intro h1 h2
    subst h2
    simp [scope_exit, h1]
  · intro h1 h2
    subst h2
    simp [scope_exit, h1]

/-- Witness for C3: with `trailing_timeout = 1` second, a consumer that
needs `2` seconds, and the default `"log"` policy, the teardown raises
stop, awaits with the bound, warns, and exits without raising; with
policy `"throw"` it raises the annotated timeout even when the caller's
block had raised. -/
theorem claim3_teardown_witness :
    (scope_exit (some 1) ErrorsPolicy.log false 2).actions.take 2
        = [TAction.raiseStop, TAction.awaitConsumer (some 1)]
    ∧ TAction.warnTimeout ∈ (scope_exit (some 1) ErrorsPolicy.log false 2).actions
    ∧ (scope_exit (some 1) ErrorsPolicy.log false 2).outcome = ExitOutcome.normal
    ∧ (scope_exit (some 1) ErrorsPolicy.throw true 2).outcome
        = ExitOutcome.raisedTimeout "While waiting for trailing messages" := by
  have hto : wait_for_timesOut (some 1) 2 = true := by decide
  have hlog := claim3_teardown (some 1) ErrorsPolicy.log false 2
  have hthrow := claim3_teardown (some 1) ErrorsPolicy.throw true 2
  refine ⟨hlog.1, (hlog.2.2.2.2.1 hto rfl).1, ?_, hthrow.2.2.2.1 hto rfl⟩
  have := (hlog.2.2.2.2.1 hto rfl).2
  simpa using this

/-- C1 (amended): the claim as frozen — every value passed to `send`
before scope exit is delivered exactly once — fails when more than
`MAX_LEN` items are still pending at the shutdown drain (see
`claim1_counterexample`); the amended statement adds that proviso. For
every execution in which all `send` calls complete before the final
(post-stop) iteration and at most `MAX_LEN` items are pending at that
final drain, the concatenation of all batches delivered to the handler
is exactly the concatenation of all sent batches, in order: every sent
value is delivered exactly once, and values from a single `send` call
are observed in the order given in that call. -/
theorem claim1_delivery_amended {T : Type} (tr : List (Event T)) (r : RaceOutcome)
    (hv : ValidTrace (PState.init (T := T)) (tr ++ [Event.iter r]))
    (hstop : r.stopDone = true)
    (hlen : (runTrace (PState.init (T := T)) tr).queue.data.length ≤ MAX_LEN) :
    (runTrace (PState.init (T := T)) (tr ++ [Event.iter r])).handled.flatten
      = (sentValues (tr ++ [Event.iter r])).map QItem.val
    ∧ (runTrace (PState.init (T := T)) (tr ++ [Event.iter r])).mode = Mode.stopped := by
  have hsplit := (ValidTrace_append _ tr [Event.iter r]).mp hv
  have hrun : (runTrace (PState.init (T := T)) tr).mode = Mode.running :=
    hsplit.2.1.1
  have hcons := runTrace_conservation _ tr hsplit.1 hrun
  have hfin : runTrace (runTrace (PState.init (T := T)) tr) [Event.iter r]
      = (consumeIter (runTrace (PState.init (T := T)) tr) r).state := rfl
  constructor
  · rw [runTrace_append]
    rw [hfin, consumeIter_handled_flatten, List.take_of_length_le hlen,
      sentValues_append]
    have hsv : sentValues ([Event.iter r] : List (Event T)) = [] := rfl
    rw [hsv, List.append_nil]
    simpa [PState.init, Queue.empty] using hcons
  · rw [runTrace_append, hfin, consumeIter_mode, if_pos hstop]

/-- Witness for C1 (amended): sending `[1, 2]`, then exiting the scope;
the final drain delivers exactly `[1, 2]`. -/
theorem claim1_delivery_amended_witness :
    (runTrace (PState.init (T := Nat))
        ([Event.send [1, 2], Event.setStop] ++ [Event.iter ⟨false, true⟩])).handled.flatten
      = (sentValues (([Event.send [1, 2], Event.setStop] : List (Event Nat))
          ++ [Event.iter ⟨false, true⟩])).map QItem.val := by
  exact (claim1_delivery_amended [Event.send [1, 2], Event.setStop] ⟨false, true⟩
    (by decide) rfl (by decide)).1

/-- Counterexample to C1 as frozen: one `send` of `5001` values
completes before scope exit and before any timeout (the post-stop drain
runs), yet value `5000` is never delivered to the handler — the final
drain takes only `MAX_LEN = 5000` items and `clear(all=True)` discards
the rest. -/
theorem claim1_counterexample :
    ValidTrace (PState.init (T := Nat)) overflowTrace
    ∧ (5000 : Nat) ∈ sentValues overflowTrace
    ∧ QItem.val (5000 : Nat) ∉ (runTrace (PState.init (T := Nat)) overflowTrace).handled.flatten := by
  refine ⟨?_, ?_, ?_⟩
  · refine ⟨trivial, trivial, ⟨rfl, Or.inr rfl, ?_, ?_⟩, trivial⟩
    · intro h
      exact absurd h (by simp)
    · exact ⟨fun _ => rfl, fun _ => rfl⟩
  · simp [overflowTrace, sentValues, sentBatches, List.mem_range]
  · intro hmem
    have hrun : runTrace (PState.init (T := Nat)) overflowTrace
        = (consumeIter
            (stepEvent (stepEvent (PState.init (T := Nat))
              (Event.send (List.range 5001))) Event.setStop)
            ⟨false, true⟩).state := rfl
    rw [hrun, consumeIter_handled_flatten] at hmem
    simp only [stepEvent, produce_batch, Queue.put_many, Queue.put_signal,
      PState.init, Queue.empty, List.nil_append, List.flatten_nil] at hmem
    rw [← List.map_take, List.take_range] at hmem
    obtain ⟨a, ha, heq⟩ := List.mem_map.mp hmem
    rw [List.mem_range] at ha
    injection heq with heq'
    simp only [MAX_LEN] at ha
    omega

/-- C7: single-item adapter equivalence. `produce_one` wraps each value
into a one-element batch and delegates to the batch producer;
`consume_from_batch` invokes the per-item handler on each element of a
batch in order, awaiting each before the next (a sequential left fold).
Consequently, sending `1, 2, 3` one at a time through the single-item
pipe produces the same three per-item handler observations, in the same
order, as sending `[1, 2, 3]` once through the batch pipe with the
iterating handler: both executions observe `[1, 2, 3]`. -/
theorem claim7_adapter_equivalence :
    (∀ (q : Queue Nat) (v : Nat), produce_one q v = produce_batch q [v])
    ∧ (∀ (σ : Type) (h : σ → Nat → σ) (acc : σ) (x y z : Nat),
        consume_from_batch h acc [x, y, z] = h (h (h acc x) y) z)
    ∧ ValidTrace (PState.init (T := Nat)) singleTrace
    ∧ ValidTrace (PState.init (T := Nat)) batchTrace
    ∧ itemObservations (runTrace (PState.init (T := Nat)) singleTrace).handled = [1, 2, 3]
    ∧ itemObservations (runTrace (PState.init (T := Nat)) batchTrace).handled = [1, 2, 3]
    ∧ itemObservations (runTrace (PState.init (T := Nat)) singleTrace).handled
        = itemObservations (runTrace (PState.init (T := Nat)) batchTrace).handled := by
  exact ⟨fun q v => rfl, fun σ h acc x y z => rfl,
    by decide, by decide, by decide, by decide, by decide⟩

end ModalPipe
